import Mathlib

/-!
Verification of the `transformers_daemon` package: the cron-style task
scheduler (`task_scheduler.py`), the bounded model cache
(`model_manager.py`), the agent reasoning loop (`agent_loop.py`) and the
daemon supervisor (`daemon.py`), shallowly embedded and checked against
their natural-language specification.
-/

/-- Calendar components of an instant as read by the scheduler
(`datetime.now()` in `task_scheduler.py`), already truncated to the
minute: minute-of-hour, hour-of-day, day-of-month, month, weekday.
`TaskScheduler._should_execute` only ever reads `minute` and `hour`. -/
structure DateTime where
  minute : Nat
  hour : Nat
  day : Nat
  month : Nat
  weekday : Nat
deriving DecidableEq

/-- Accumulator pass of Python `str.split()` with no argument: cut the
character list at runs of whitespace, dropping leading and trailing
whitespace; `acc` holds the current word reversed. -/
def splitWsAux : List Char → List Char → List (List Char)
  | [], acc => if acc = [] then [] else [acc.reverse]
  | c :: cs, acc =>
    if c.isWhitespace then
      if acc = [] then splitWsAux cs []
      else acc.reverse :: splitWsAux cs []
    else splitWsAux cs (c :: acc)

/-- Python `schedule.split()`: whitespace-separated fields of the
schedule string. -/
def splitFields (s : String) : List String :=
  (splitWsAux s.toList []).map (fun w => String.mk w)

/-- Decimal value of a digit run for `pyInt`; `none` when the run is
empty or contains a non-digit (Python `int` raises `ValueError`). -/
def parseDigits : List Char → Option Nat → Option Nat
  | [], acc => acc
  | c :: cs, acc =>
    if c.isDigit then
      parseDigits cs (some ((acc.getD 0) * 10 + (c.toNat - '0'.toNat)))
    else none

/-- Python `int(s)` on a string: surrounding whitespace is ignored, an
optional sign precedes a non-empty digit run; `none` models the
`ValueError` raised on any other shape. -/
def pyInt (s : String) : Option Int :=
  let t := ((s.toList.dropWhile Char.isWhitespace).reverse.dropWhile
      Char.isWhitespace).reverse
  match t with
  | '+' :: ds => (parseDigits ds none).map (fun n => (n : Int))
  | '-' :: ds => (parseDigits ds none).map (fun n => -(n : Int))
  | ds => (parseDigits ds none).map (fun n => (n : Int))

/-- Embeds `TaskScheduler._should_execute`: split the schedule, reject
unless exactly 5 fields, then test the minute and hour fields exactly as
the two Python guards do.  A `ValueError` from `int()` (here `pyInt _ =
none`) is caught by the surrounding `try` and yields `False`.  The
day/month/weekday fields are bound but never tested (the code comment
says "For simplicity, we'll just check hour and minute"). -/
def shouldExecute (schedule : String) (t : DateTime) : Bool :=
  match splitFields schedule with
  | [minute, hour, _day, _month, _weekday] =>
    if minute ≠ "*" ∧ pyInt minute ≠ some (t.minute : Int) then false
    else if hour ≠ "*" ∧ pyInt hour ≠ some (t.hour : Int) then false
    else true
  | _ => false

/-- Modelled from the spec for comparison with `shouldExecute` (claim
C1): a field matches when it is the wildcard or an integer equal to the
corresponding instant component. -/
def wildcardOrEq (field : String) (component : Nat) : Bool :=
  field = "*" || pyInt field == some (component : Int)

/-- Modelled from the spec for comparison with `shouldExecute` (claim
C1): all five fields must be wildcard-or-equal for the instant. -/
def firesSpec (schedule : String) (t : DateTime) : Bool :=
  match splitFields schedule with
  | [minute, hour, day, month, weekday] =>
    wildcardOrEq minute t.minute && wildcardOrEq hour t.hour &&
      wildcardOrEq day t.day && wildcardOrEq month t.month &&
      wildcardOrEq weekday t.weekday
  | _ => false

/-- C1 (counterexample): the schedule `"0 9 5 1 1"` fires at an instant
whose day, month and weekday are all 2, although the spec predicate
(all five fields wildcard-or-equal) rejects that instant: the matcher
ignores the last three fields. -/
theorem shouldExecute_ignores_day_fields_cex :
    shouldExecute "0 9 5 1 1" ⟨0, 9, 2, 2, 2⟩ = true ∧
      firesSpec "0 9 5 1 1" ⟨0, 9, 2, 2, 2⟩ = false := by
  decide

/-- Reduction of the matcher on a schedule with exactly five fields:
only the minute and hour guards decide the outcome. -/
lemma shouldExecute_five (mi ho d mo w schedule : String) (t : DateTime)
    (hs : splitFields schedule = [mi, ho, d, mo, w]) :
    shouldExecute schedule t = true ↔
      (mi = "*" ∨ pyInt mi = some (t.minute : Int)) ∧
        (ho = "*" ∨ pyInt ho = some (t.hour : Int)) := by
  unfold shouldExecute
  rw [hs]
  constructor
  · intro h
    have h' : (if mi ≠ "*" ∧ pyInt mi ≠ some (t.minute : Int) then false
        else if ho ≠ "*" ∧ pyInt ho ≠ some (t.hour : Int) then false
        else true) = true := h
    split_ifs at h' with h1 h2
    exact ⟨by tauto, by tauto⟩
  · rintro ⟨h1, h2⟩
    show (if mi ≠ "*" ∧ pyInt mi ≠ some (t.minute : Int) then false
        else if ho ≠ "*" ∧ pyInt ho ≠ some (t.hour : Int) then false
        else true) = true
    split_ifs with g1 g2 <;> tauto

/-- C1 (amended): the matcher returns true iff the schedule splits into
exactly five whitespace-separated fields and the minute and hour fields
are each the wildcard or an integer equal to the instant's minute
resp. hour; the day, month and weekday fields are not examined. -/
theorem shouldExecute_iff_minute_hour_match (schedule : String) (t : DateTime) :
    shouldExecute schedule t = true ↔
      ∃ mi ho d mo w, splitFields schedule = [mi, ho, d, mo, w] ∧
        (mi = "*" ∨ pyInt mi = some (t.minute : Int)) ∧
        (ho = "*" ∨ pyInt ho = some (t.hour : Int)) := by
  rcases hs : splitFields schedule with _ | ⟨mi, _ | ⟨ho, _ | ⟨d, _ | ⟨mo, _ | ⟨w, _ | ⟨x, rest⟩⟩⟩⟩⟩⟩
  case cons.cons.cons.cons.cons.nil =>
    rw [shouldExecute_five mi ho d mo w schedule t hs]
    constructor
    · rintro ⟨h1, h2⟩
      exact ⟨mi, ho, d, mo, w, rfl, h1, h2⟩
    · rintro ⟨mi', ho', d', mo', w', heq, h1, h2⟩
      simp only [List.cons.injEq, and_true] at heq
      obtain ⟨rfl, rfl, rfl, rfl, rfl⟩ := heq
      exact ⟨h1, h2⟩
  all_goals
    unfold shouldExecute
    rw [hs]
    simp [hs]

/-- C1 (witness): the amended equivalence applied at the schedule
`"0 9 * * *"` and the instant 09:00. -/
theorem shouldExecute_iff_minute_hour_match_witness :
    shouldExecute "0 9 * * *" ⟨0, 9, 1, 1, 1⟩ = true :=
  (shouldExecute_iff_minute_hour_match "0 9 * * *" ⟨0, 9, 1, 1, 1⟩).mpr
    ⟨"0", "9", "*", "*", "*", by decide, by decide, by decide⟩

/-- C9 (counterexample): the schedule `"* * a b c"` is malformed (its
day, month and weekday fields are non-integer and not the wildcard),
yet the matcher returns true: malformed trailing fields do not make the
job non-firing. -/
theorem shouldExecute_malformed_tail_fires_cex :
    shouldExecute "* * a b c" ⟨0, 0, 1, 1, 0⟩ = true := by
  decide

/-- C9 (amended): a schedule that does not split into exactly five
fields never fires, in particular `"a b"` never fires, and a five-field
schedule whose minute or hour field is non-integer and not the wildcard
never fires; the matcher is a total function, every `ValueError` being
caught (`except` returns `False`).  Only malformed day/month/weekday
fields escape this: they are not examined at all. -/
theorem shouldExecute_malformed_never_fires :
    (∀ schedule t, (splitFields schedule).length ≠ 5 →
        shouldExecute schedule t = false) ∧
    (∀ t, shouldExecute "a b" t = false) ∧
    (∀ mi ho d mo w schedule t, splitFields schedule = [mi, ho, d, mo, w] →
        mi ≠ "*" → pyInt mi = none → shouldExecute schedule t = false) ∧
    (∀ mi ho d mo w schedule t, splitFields schedule = [mi, ho, d, mo, w] →
        ho ≠ "*" → pyInt ho = none → shouldExecute schedule t = false) := by
  have hlen : ∀ schedule t, (splitFields schedule).length ≠ 5 →
      shouldExecute schedule t = false := by
    intro schedule t hne
    rcases h : shouldExecute schedule t with _ | _
    · rfl
    · obtain ⟨mi, ho, d, mo, w, hs, -, -⟩ :=
        (shouldExecute_iff_minute_hour_match schedule t).mp h
      rw [hs] at hne
      exact absurd rfl hne
  refine ⟨hlen, ?_, ?_, ?_⟩
  · intro t
    apply hlen
    rw [show splitFields "a b" = ["a", "b"] from rfl]
    decide
  · intro mi ho d mo w schedule t hs hstar hnone
    rcases h : shouldExecute schedule t with _ | _
    · rfl
    · obtain ⟨mi', ho', d', mo', w', hs', h1, -⟩ :=
        (shouldExecute_iff_minute_hour_match schedule t).mp h
      rw [hs] at hs'
      simp only [List.cons.injEq, and_true] at hs'
      obtain ⟨rfl, rfl, rfl, rfl, rfl⟩ := hs'
      rcases h1 with h1 | h1
      · exact absurd h1 hstar
      · rw [hnone] at h1
        cases h1
  · intro mi ho d mo w schedule t hs hstar hnone
    rcases h : shouldExecute schedule t with _ | _
    · rfl
    · obtain ⟨mi', ho', d', mo', w', hs', -, h2⟩ :=
        (shouldExecute_iff_minute_hour_match schedule t).mp h
      rw [hs] at hs'
      simp only [List.cons.injEq, and_true] at hs'
      obtain ⟨rfl, rfl, rfl, rfl, rfl⟩ := hs'
      rcases h2 with h2 | h2
      · exact absurd h2 hstar
      · rw [hnone] at h2
        cases h2

/-- C9 (witness): the amended theorem applied to the two-field schedule
`"a b"` and to a five-field schedule with a non-integer minute field. -/
theorem shouldExecute_malformed_never_fires_witness :
    shouldExecute "a b" ⟨30, 12, 1, 1, 0⟩ = false ∧
      shouldExecute "x 9 * * *" ⟨0, 9, 1, 1, 0⟩ = false :=
  ⟨shouldExecute_malformed_never_fires.2.1 ⟨30, 12, 1, 1, 0⟩,
    shouldExecute_malformed_never_fires.2.2.1 "x" "9" "*" "*" "*"
      "x 9 * * *" ⟨0, 9, 1, 1, 0⟩ (by decide) (by decide) (by decide)⟩

/-- Absolute wall-clock minute of an instant given as seconds since the
epoch: two instants are in the same minute iff their `minuteIndex`
agree. -/
def minuteIndex (t : Nat) : Nat := t / 60

/-- Calendar view of an instant given as seconds since the epoch, for
feeding `shouldExecute` from the scheduler's poll loop.  Only the
minute-of-hour and hour-of-day components are ever read by the matcher;
the day/month/weekday components are carried as plain counters. -/
def toDT (t : Nat) : DateTime :=
  ⟨t % 3600 / 60, t % 86400 / 3600, t / 86400, t / 86400, t / 86400⟩

/-- Firing decision of `TaskScheduler.run` at one poll tick: the loop
keeps no per-task state (no last-fired instant anywhere in the class),
so the decision is the pure `_should_execute` test at the tick's time. -/
def firesAtTick (schedule : String) (t : Nat) : Bool :=
  shouldExecute schedule (toDT t)

/-- Separation of minute indices: a tick at least 60 seconds after
another lies in a strictly later minute. -/
lemma minuteIndex_lt_of_gap {a b : Nat} (h : a + 60 ≤ b) :
    minuteIndex a < minuteIndex b := by
  unfold minuteIndex
  have h1 : (a + 60) / 60 ≤ b / 60 := Nat.div_le_div_right h
  have h2 : (a + 60) / 60 = a / 60 + 1 := Nat.add_div_right a (by norm_num)
  omega

/-- C6 (counterexample): nothing prevents a double fire within one
minute.  The ticks 0 s and 30 s lie in the same wall-clock minute, and
the job `"* * * * *"` fires at both: the scheduler has no last-fired
tracking, so two poll ticks inside one matching minute fire the job
twice. -/
theorem firesAtTick_double_fire_cex :
    minuteIndex 0 = minuteIndex 30 ∧
      firesAtTick "* * * * *" 0 = true ∧
      firesAtTick "* * * * *" 30 = true ∧
      (([0, 30].filter (fun t =>
          decide (minuteIndex t = 0) && firesAtTick "* * * * *" t)).length = 2) := by
  decide

/-- C6 (amended): the scheduler fires a job at most once per wall-clock
minute only by virtue of its poll spacing: `run` sleeps 60 seconds
between checks, so consecutive ticks are at least 60 seconds apart, and
then any given minute contains at most one tick at all — hence at most
one firing of each schedule in that minute.  No last-fired instant is
tracked. -/
theorem firesAtTick_once_per_minute (ticks : List Nat)
    (hgap : List.Chain' (fun a b => a + 60 ≤ b) ticks)
    (schedule : String) (m : Nat) :
    (ticks.filter (fun t =>
        decide (minuteIndex t = m) && firesAtTick schedule t)).length ≤ 1 := by
  have htrans : ∀ a b c : Nat, a + 60 ≤ b → b + 60 ≤ c → a + 60 ≤ c := by
    intro a b c hab hbc
    omega
  have hpw : List.Pairwise (fun a b => a + 60 ≤ b) ticks := by
    haveI : IsTrans Nat (fun a b => a + 60 ≤ b) := ⟨fun a b c => htrans a b c⟩
    exact List.chain'_iff_pairwise.mp hgap
  have hpf : List.Pairwise (fun a b => a + 60 ≤ b)
      (ticks.filter (fun t =>
        decide (minuteIndex t = m) && firesAtTick schedule t)) :=
    hpw.filter _
  by_contra hlen
  push_neg at hlen
  rcases hf : ticks.filter (fun t =>
      decide (minuteIndex t = m) && firesAtTick schedule t) with _ | ⟨a, _ | ⟨b, rest⟩⟩
  · rw [hf] at hlen
    simp at hlen
  · rw [hf] at hlen
    simp at hlen
  · have ha : a ∈ ticks.filter (fun t =>
        decide (minuteIndex t = m) && firesAtTick schedule t) := by
      rw [hf]; exact List.mem_cons_self a _
    have hb : b ∈ ticks.filter (fun t =>
        decide (minuteIndex t = m) && firesAtTick schedule t) := by
      rw [hf]; exact List.mem_cons_of_mem a (List.mem_cons_self b rest)
    have hma : minuteIndex a = m := by
      have := List.of_mem_filter ha
      simp at this
      exact this.1
    have hmb : minuteIndex b = m := by
      have := List.of_mem_filter hb
      simp at this
      exact this.1
    have hab : a + 60 ≤ b := by
      rw [hf] at hpf
      exact (List.pairwise_cons.mp hpf).1 b (List.mem_cons_self b rest)
    have := minuteIndex_lt_of_gap hab
    omega

/-- C6 (witness): the amended bound applied to the tick sequence
0 s, 60 s, 120 s (consecutive gaps of exactly 60 s) for the
always-matching schedule in minute 0. -/
theorem firesAtTick_once_per_minute_witness :
    (([0, 60, 120].filter (fun t =>
        decide (minuteIndex t = 0) && firesAtTick "* * * * *" t)).length ≤ 1) :=
  firesAtTick_once_per_minute [0, 60, 120]
    (List.chain'_cons.mpr ⟨by omega,
      List.chain'_cons.mpr ⟨by omega, List.chain'_singleton 120⟩⟩)
    "* * * * *" 0

/-- State of `ModelManager`.  `loaded_models` and `model_usage` always
hold the same keys — entries are inserted together (lines 72–82) and
deleted together (lines 135–136) — so both dicts are modelled as one
association list in dict insertion order, carrying `last_used`, the only
field ever consulted.  `clock` models the strictly increasing sequence
of `datetime.now()` readings; `maxLoaded` is `max_loaded_models`. -/
structure MM where
  usage : List (String × Nat)
  clock : Nat
  maxLoaded : Nat
deriving DecidableEq

/-- Embeds `ModelManager.get_loaded_models`:
`list(self.loaded_models.keys())` in dict insertion order. -/
def getLoadedModels (s : MM) : List String := s.usage.map Prod.fst

/-- Python `min(self.model_usage.items(), key=lambda x: x[1]['last_used'])`:
the first item attaining the minimal `last_used` (Python `min` keeps the
earlier element on ties, and dict iteration order is insertion order);
`none` on an empty dict. -/
def pyMinByLastUsed : List (String × Nat) → Option (String × Nat)
  | [] => none
  | x :: xs =>
    match pyMinByLastUsed xs with
    | none => some x
    | some y => if y.2 < x.2 then some y else some x

/-- Embeds `ModelManager._unload_least_used`: return unchanged when the
usage dict is empty, otherwise delete the least-recently-used key from
both dicts. -/
def unloadLeastUsed (s : MM) : MM :=
  match pyMinByLastUsed s.usage with
  | none => s
  | some lru => { s with usage := s.usage.eraseP (fun e => e.1 == lru.1) }

/-- Embeds `ModelManager.load_model`.  `ok` abstracts whether
`pipeline(task, model=model_name)` constructs without raising; the
enclosing `try` turns any exception into a logged `return None`,
modelled by the `false` second component (`true` = a handle was
returned).  Note the eviction happens before the pipeline construction
is attempted. -/
def loadModel (s : MM) (name : String) (ok : Bool) : MM × Bool :=
  if name ∈ getLoadedModels s then (s, true)
  else
    let s1 := if s.maxLoaded ≤ s.usage.length then unloadLeastUsed s else s
    if ok then
      ({ s1 with
          usage := s1.usage ++ [(name, s1.clock)],
          clock := s1.clock + 1 }, true)
    else (s1, false)

/-- Embeds `ModelManager.generate` for an explicitly named model (a
`model_name=None` call resolves to the configured default before any
cache access).  `loadOk` abstracts pipeline construction on a miss and
`genOk` whether `pipeline(prompt)` succeeds; an exception there is
caught after the usage update has been skipped, so `last_used` is only
bumped on success. -/
def generate (s : MM) (name : String) (loadOk genOk : Bool) : MM × Bool :=
  let s1 := if name ∈ getLoadedModels s then s else (loadModel s name loadOk).1
  if name ∈ getLoadedModels s1 then
    if genOk then
      ({ s1 with
          usage := s1.usage.map (fun e => if e.1 = name then (e.1, s1.clock) else e),
          clock := s1.clock + 1 }, true)
    else (s1, false)
  else (s1, false)

/-- Calls against one `ModelManager`: an explicit `load_model` or a
`generate`, each with the success of its fallible pipeline steps. -/
inductive MMOp where
  | load (name : String) (ok : Bool)
  | gen (name : String) (loadOk genOk : Bool)
deriving DecidableEq

/-- State reached after one call. -/
def stepMM (s : MM) : MMOp → MM
  | .load n ok => (loadModel s n ok).1
  | .gen n lo go => (generate s n lo go).1

/-- State of a fresh `ModelManager` with capacity `k`
(`loaded_models = {}`, `model_usage = {}`). -/
def initMM (k : Nat) : MM := { usage := [], clock := 0, maxLoaded := k }

/-- State after a sequence of calls against a fresh manager. -/
def runMM (k : Nat) (ops : List MMOp) : MM := ops.foldl stepMM (initMM k)

/-- Emptiness characterisation of the Python `min` over usage items. -/
lemma pyMinByLastUsed_eq_none {l : List (String × Nat)} :
    pyMinByLastUsed l = none ↔ l = [] := by
  cases l with
  | nil => simp [pyMinByLastUsed]
  | cons x xs =>
    simp only [pyMinByLastUsed]
    constructor
    · intro h
      rcases he : pyMinByLastUsed xs with _ | y <;> rw [he] at h
      · cases h
      · have h2 : (if y.2 < x.2 then some y else some x) = none := h
        by_cases hy : y.2 < x.2
        · rw [if_pos hy] at h2
          cases h2
        · rw [if_neg hy] at h2
          cases h2
    · intro h
      cases h

/-- Membership of the Python `min` over usage items. -/
lemma pyMinByLastUsed_mem {l : List (String × Nat)} {x : String × Nat}
    (h : pyMinByLastUsed l = some x) : x ∈ l := by
  induction l generalizing x with
  | nil => cases h
  | cons a xs ih =>
    simp only [pyMinByLastUsed] at h
    rcases he : pyMinByLastUsed xs with _ | y <;> rw [he] at h
    · cases h
      exact List.mem_cons_self a xs
    · have h2 : (if y.2 < a.2 then some y else some a) = some x := h
      by_cases hy : y.2 < a.2
      · rw [if_pos hy] at h2
        cases h2
        exact List.mem_cons_of_mem a (ih he)
      · rw [if_neg hy] at h2
        cases h2
        exact List.mem_cons_self a xs

/-- Evicting from a non-empty usage dict removes exactly one entry. -/
lemma unloadLeastUsed_length {s : MM} (h : s.usage ≠ []) :
    (unloadLeastUsed s).usage.length = s.usage.length - 1 := by
  unfold unloadLeastUsed
  rcases he : pyMinByLastUsed s.usage with _ | lru
  · exact absurd (pyMinByLastUsed_eq_none.mp he) h
  · have hmem : lru ∈ s.usage := pyMinByLastUsed_mem he
    have hp : (fun e : String × Nat => e.1 == lru.1) lru = true := by
      simp
    simp only
    exact List.length_eraseP_of_mem hmem hp

/-- Eviction never grows the usage dict. -/
lemma unloadLeastUsed_length_le (s : MM) :
    (unloadLeastUsed s).usage.length ≤ s.usage.length := by
  by_cases h : s.usage = []
  · unfold unloadLeastUsed
    rw [pyMinByLastUsed_eq_none.mpr h]
  · rw [unloadLeastUsed_length h]
    omega

/-- Eviction leaves capacity and clock unchanged. -/
lemma unloadLeastUsed_fields (s : MM) :
    (unloadLeastUsed s).maxLoaded = s.maxLoaded ∧
      (unloadLeastUsed s).clock = s.clock := by
  unfold unloadLeastUsed
  split <;> simp

/-- One `load_model` call keeps the cache within capacity (capacity at
least 1): at capacity the single LRU eviction makes room before the
insert; below capacity the insert fits. -/
lemma loadModel_bound {s : MM} (name : String) (ok : Bool)
    (hk : 1 ≤ s.maxLoaded) (hlen : s.usage.length ≤ s.maxLoaded) :
    (loadModel s name ok).1.usage.length ≤ s.maxLoaded ∧
      (loadModel s name ok).1.maxLoaded = s.maxLoaded := by
  unfold loadModel
  by_cases hmem : name ∈ getLoadedModels s
  · rw [if_pos hmem]
    exact ⟨hlen, rfl⟩
  · rw [if_neg hmem]
    dsimp only
    split_ifs with hok hcap hcap
    · have hne : s.usage ≠ [] := by
        intro h0
        rw [h0] at hcap
        simp at hcap
        omega
      have hu := unloadLeastUsed_length (s := s) hne
      refine ⟨?_, (unloadLeastUsed_fields s).1⟩
      show ((unloadLeastUsed s).usage ++
          [(name, (unloadLeastUsed s).clock)]).length ≤ s.maxLoaded
      simp only [List.length_append, List.length_cons, List.length_nil]
      omega
    · refine ⟨?_, rfl⟩
      show (s.usage ++ [(name, s.clock)]).length ≤ s.maxLoaded
      simp only [List.length_append, List.length_cons, List.length_nil]
      omega
    · have hne : s.usage ≠ [] := by
        intro h0
        rw [h0] at hcap
        simp at hcap
        omega
      have hu := unloadLeastUsed_length (s := s) hne
      refine ⟨?_, (unloadLeastUsed_fields s).1⟩
      show (unloadLeastUsed s).usage.length ≤ s.maxLoaded
      omega
    · exact ⟨hlen, rfl⟩

/-- One `generate` call keeps the cache within capacity: its only cache
growth goes through `load_model`, and the usage bump is an in-place
update. -/
lemma generate_bound {s : MM} (name : String) (loadOk genOk : Bool)
    (hk : 1 ≤ s.maxLoaded) (hlen : s.usage.length ≤ s.maxLoaded) :
    (generate s name loadOk genOk).1.usage.length ≤ s.maxLoaded ∧
      (generate s name loadOk genOk).1.maxLoaded = s.maxLoaded := by
  unfold generate
  dsimp only
  by_cases hmem : name ∈ getLoadedModels s
  · rw [if_pos hmem]
    split_ifs with h1
    · refine ⟨?_, rfl⟩
      show (s.usage.map
          (fun e => if e.1 = name then (e.1, s.clock) else e)).length ≤ s.maxLoaded
      simp only [List.length_map]
      exact hlen
    · exact ⟨hlen, rfl⟩
  · rw [if_neg hmem]
    have hload := loadModel_bound (s := s) name loadOk hk hlen
    split_ifs with h1 hok
    · refine ⟨?_, hload.2⟩
      show ((loadModel s name loadOk).1.usage.map
          (fun e => if e.1 = name then (e.1, (loadModel s name loadOk).1.clock) else e)).length ≤
        s.maxLoaded
      simp only [List.length_map]
      exact hload.1
    · exact hload
    · exact hload

/-- One call of either kind preserves the capacity bound and leaves the
configured capacity itself unchanged. -/
lemma stepMM_bound {s : MM} (op : MMOp)
    (hk : 1 ≤ s.maxLoaded) (hlen : s.usage.length ≤ s.maxLoaded) :
    (stepMM s op).usage.length ≤ s.maxLoaded ∧
      (stepMM s op).maxLoaded = s.maxLoaded := by
  cases op with
  | load n ok => exact loadModel_bound n ok hk hlen
  | gen n lo go => exact generate_bound n lo go hk hlen

/-- The capacity bound is an inductive invariant of any call sequence. -/
lemma foldl_stepMM_bound : ∀ (ops : List MMOp) (s : MM),
    1 ≤ s.maxLoaded → s.usage.length ≤ s.maxLoaded →
    (ops.foldl stepMM s).usage.length ≤ s.maxLoaded := by
  intro ops
  induction ops with
  | nil => intro s _ hlen; exact hlen
  | cons op rest ih =>
    intro s hk hlen
    have h := stepMM_bound op hk hlen
    have hk' : 1 ≤ (stepMM s op).maxLoaded := by rw [h.2]; exact hk
    have hlen' : (stepMM s op).usage.length ≤ (stepMM s op).maxLoaded := by
      rw [h.2]; exact h.1
    have := ih (stepMM s op) hk' hlen'
    rw [h.2] at this
    exact this

/-- C2: for every capacity `K ≥ 1` and every sequence of `load_model`
and `generate` calls against a fresh `ModelManager` (each call's
pipeline steps succeeding or failing arbitrarily), the number of loaded
models never exceeds `K` after any call completes. -/
theorem modelCache_size_bounded (k : Nat) (hk : 1 ≤ k) (ops : List MMOp) :
    (runMM k ops).usage.length ≤ k :=
  foldl_stepMM_bound ops (initMM k) hk (by simp [initMM])

/-- C2 (witness): capacity 1 with two successful loads — the second
load evicts the first, and the bound holds. -/
theorem modelCache_size_bounded_witness :
    (runMM 1 [MMOp.load "A" true, MMOp.load "B" true]).usage.length ≤ 1 :=
  modelCache_size_bounded 1 (by decide) [MMOp.load "A" true, MMOp.load "B" true]

/-- Eviction only removes entries: the surviving usage list is a
sublist (same entries, same order, same timestamps) of the original. -/
lemma unloadLeastUsed_sublist (s : MM) :
    (unloadLeastUsed s).usage.Sublist s.usage := by
  unfold unloadLeastUsed
  rcases pyMinByLastUsed s.usage with _ | lru
  · exact List.Sublist.refl _
  · exact List.eraseP_sublist _

/-- C5 (amended): when the pipeline construction fails on a cache miss,
`load_model` returns `None` (the exception is caught and logged — no
`ResourceLoadError` or any other error type reaches the caller), the
requested model is not inserted (no partial insert), and the surviving
cache is a sublist of the original shrunk by at most one entry: below
capacity the state is exactly unchanged, while at capacity the LRU
entry has already been evicted before the failure. -/
theorem loadModel_failure_not_atomic (s : MM) (name : String)
    (h : name ∉ getLoadedModels s) :
    (loadModel s name false).2 = false ∧
      name ∉ getLoadedModels (loadModel s name false).1 ∧
      (loadModel s name false).1.usage.Sublist s.usage ∧
      s.usage.length - 1 ≤ (loadModel s name false).1.usage.length ∧
      (s.usage.length < s.maxLoaded → (loadModel s name false).1 = s) := by
  unfold loadModel
  rw [if_neg h]
  dsimp only
  rw [if_neg (by simp : ¬(false = true))]
  by_cases hcap : s.maxLoaded ≤ s.usage.length
  · rw [if_pos hcap]
    refine ⟨rfl, ?_, unloadLeastUsed_sublist s, ?_, ?_⟩
    · intro hmem
      exact h (((unloadLeastUsed_sublist s).map Prod.fst).subset hmem)
    · by_cases hne : s.usage = []
      · rw [hne]
        simp
      · rw [unloadLeastUsed_length hne]
    · intro hlt
      exact absurd hcap (by omega)
  · rw [if_neg hcap]
    refine ⟨rfl, h, List.Sublist.refl _, ?_, fun _ => rfl⟩
    show s.usage.length - 1 ≤ s.usage.length
    omega

/-- C5 (witness): a full capacity-1 cache holding only `"A"`, a failing
load of `"B"` — the call returns `None`, `"B"` is absent, and the
result is a sublist of the original state. -/
theorem loadModel_failure_not_atomic_witness :
    (loadModel ⟨[("A", 0)], 1, 1⟩ "B" false).2 = false ∧
      "B" ∉ getLoadedModels (loadModel ⟨[("A", 0)], 1, 1⟩ "B" false).1 ∧
      (loadModel ⟨[("A", 0)], 1, 1⟩ "B" false).1.usage.Sublist [("A", 0)] :=
  ⟨(loadModel_failure_not_atomic ⟨[("A", 0)], 1, 1⟩ "B" (by decide)).1,
    (loadModel_failure_not_atomic ⟨[("A", 0)], 1, 1⟩ "B" (by decide)).2.1,
    (loadModel_failure_not_atomic ⟨[("A", 0)], 1, 1⟩ "B" (by decide)).2.2.1⟩

/-- C5 (counterexample): the claim "cache state is exactly what it was
before the call" fails — with a full capacity-1 cache holding `"A"`, a
failing load of `"B"` leaves an empty cache (the LRU entry was evicted
before the pipeline construction failed), and no exception surfaces
(the call returns `None`). -/
theorem loadModel_failure_evicts_cex :
    (loadModel ⟨[("A", 0)], 1, 1⟩ "B" false).1.usage = [] ∧
      (loadModel ⟨[("A", 0)], 1, 1⟩ "B" false).1.usage ≠ [("A", 0)] ∧
      (loadModel ⟨[("A", 0)], 1, 1⟩ "B" false).2 = false := by
  decide

/-- Structure of the Python `min` over usage items: the selected entry
splits the insertion-ordered list so that every earlier entry has a
strictly larger `last_used` (ties keep the earlier entry, so nothing
before it ties) and every later entry has a greater-or-equal
`last_used` — i.e. the oldest timestamp wins, ties broken by insertion
order, oldest first. -/
lemma pyMinByLastUsed_decomp :
    ∀ {l : List (String × Nat)} {x : String × Nat}, pyMinByLastUsed l = some x →
      ∃ l1 l2, l = l1 ++ x :: l2 ∧ (∀ y ∈ l1, x.2 < y.2) ∧ (∀ y ∈ l2, x.2 ≤ y.2) := by
  intro l
  induction l with
  | nil => intro x h; cases h
  | cons a xs ih =>
    intro x h
    simp only [pyMinByLastUsed] at h
    rcases he : pyMinByLastUsed xs with _ | y <;> rw [he] at h
    · cases h
      have hxs : xs = [] := pyMinByLastUsed_eq_none.mp he
      subst hxs
      exact ⟨[], [], rfl, by simp, by simp⟩
    · have h2 : (if y.2 < a.2 then some y else some a) = some x := h
      by_cases hy : y.2 < a.2
      · rw [if_pos hy] at h2
        cases h2
        obtain ⟨l1, l2, heq, hl1, hl2⟩ := ih he
        refine ⟨a :: l1, l2, by rw [heq, List.cons_append], ?_, hl2⟩
        intro z hz
        rcases List.mem_cons.mp hz with rfl | hz'
        · exact hy
        · exact hl1 z hz'
      · rw [if_neg hy] at h2
        cases h2
        obtain ⟨l1, l2, heq, hl1, hl2⟩ := ih he
        refine ⟨[], xs, rfl, by simp, ?_⟩
        intro z hz
        rw [heq] at hz
        have hay : a.2 ≤ y.2 := Nat.le_of_not_lt hy
        rcases List.mem_append.mp hz with hz1 | hz2
        · exact Nat.le_of_lt (Nat.lt_of_le_of_lt hay (hl1 z hz1))
        · rcases List.mem_cons.mp hz2 with rfl | hz3
          · exact hay
          · exact Nat.le_trans hay (hl2 z hz3)

/-- Looking up a key in an association list after the in-place usage
bump (`model_usage[name]['last_used'] = now`) yields the new clock,
provided the key is present. -/
lemma lookup_map_update :
    ∀ (l : List (String × Nat)) (name : String) (c : Nat),
      name ∈ l.map Prod.fst →
      (l.map (fun e => if e.1 = name then (e.1, c) else e)).lookup name = some c := by
  intro l
  induction l with
  | nil => intro name c h; cases h
  | cons a xs ih =>
    intro name c h
    obtain ⟨k, v⟩ := a
    rw [List.map_cons]
    by_cases hk : k = name
    · subst hk
      simp [List.lookup_cons]
    · have hnk : name ≠ k := fun he => hk he.symm
      rw [if_neg (show ¬((k, v) : String × Nat).1 = name from hk), List.lookup_cons]
      rw [beq_false_of_ne hnk]
      apply ih
      rcases List.mem_cons.mp h with h1 | h2
      · exact absurd h1.symm hk
      · exact h2

/-- A `generate` hit with successful inference bumps the hit entry's
`last_used` to the current clock reading. -/
lemma generate_hit_updates (s : MM) (name : String) (lo : Bool)
    (h : name ∈ getLoadedModels s) :
    ((generate s name lo true).1.usage).lookup name = some s.clock := by
  unfold generate
  dsimp only
  rw [if_pos h, if_pos h, if_pos rfl]
  exact lookup_map_update s.usage name s.clock h

/-- C7: LRU eviction is correct.  (1) The evicted entry is the one with
the oldest `last_used`, ties broken by insertion order, oldest first;
(2) a cache hit through `generate` updates the entry's last-used
instant; (3) concretely, with capacity 2 and successful accesses in
order A, B, A, C, inserting C evicts B and keeps A. -/
theorem lru_eviction_correct :
    (∀ (l : List (String × Nat)) (x : String × Nat), pyMinByLastUsed l = some x →
        ∃ l1 l2, l = l1 ++ x :: l2 ∧ (∀ y ∈ l1, x.2 < y.2) ∧ (∀ y ∈ l2, x.2 ≤ y.2)) ∧
      (∀ (s : MM) (name : String) (lo : Bool), name ∈ getLoadedModels s →
        ((generate s name lo true).1.usage).lookup name = some s.clock) ∧
      getLoadedModels (runMM 2 [MMOp.gen "A" true true, MMOp.gen "B" true true,
        MMOp.gen "A" true true, MMOp.gen "C" true true]) = ["A", "C"] := by
  refine ⟨fun l x h => pyMinByLastUsed_decomp h,
    fun s name lo h => generate_hit_updates s name lo h, ?_⟩
  decide

/-- C7 (witness): the eviction structure applied to the concrete usage
list `[("A", 4), ("B", 3)]` — the Python `min` selects `("B", 3)` and
the decomposition certifies it as strictly fresher than nothing before
it and no fresher than anything after it; and a hit on a loaded `"A"`
bumps its `last_used` to the clock. -/
theorem lru_eviction_correct_witness :
    (∃ l1 l2, ([("A", 4), ("B", 3)] : List (String × Nat)) =
        l1 ++ ("B", 3) :: l2 ∧
        (∀ y ∈ l1, (("B", 3) : String × Nat).2 < y.2) ∧
        (∀ y ∈ l2, (("B", 3) : String × Nat).2 ≤ y.2)) ∧
      ((generate ⟨[("A", 0)], 1, 3⟩ "A" true true).1.usage).lookup "A" = some 1 :=
  ⟨lru_eviction_correct.1 [("A", 4), ("B", 3)] ("B", 3) (by decide),
    lru_eviction_correct.2.1 ⟨[("A", 0)], 1, 3⟩ "A" true (by decide)⟩

/-- Embeds `AgentLoop._process_actions` together with the concurrent
`add_task` appends: the loop is `while self.pending_actions: action =
self.pending_actions.pop(0)` — it pops from the live queue, not from a
snapshot taken at drain start.  The injection schedule gives, for each
processed action in turn, the actions appended to `pending_actions`
while that action's handler ran; once the schedule is exhausted no
further enqueue happens and the loop pops the remaining queue in FIFO
order unchanged.  Returns the actions processed by this drain, in
processing order. -/
def processActions {α : Type} : List α → List (List α) → List α
  | q, [] => q
  | [], _ :: _ => []
  | a :: rest, x :: is => a :: processActions (rest ++ x) is

/-- With no concurrent enqueue the drain returns its queue unchanged. -/
lemma processActions_no_enqueue {α : Type} (q : List α) :
    processActions q [] = q := by
  cases q <;> rfl

/-- Every action in the initial queue is processed by the drain. -/
lemma processActions_mem_of_mem {α : Type} :
    ∀ (injs : List (List α)) (q : List α) (a : α),
      a ∈ q → a ∈ processActions q injs := by
  intro injs
  induction injs with
  | nil =>
    intro q a ha
    rw [processActions_no_enqueue]
    exact ha
  | cons x is ih =>
    intro q a ha
    cases q with
    | nil => cases ha
    | cons b rest =>
      rcases List.mem_cons.mp ha with rfl | ha'
      · exact List.mem_cons_self a _
      · exact List.mem_cons_of_mem b (ih (rest ++ x) a (List.mem_append_left x ha'))

/-- C3 (counterexample): the drain is not snapshot-isolated.  With `a1`
queued at drain start and `a2` enqueued while `a1`'s handler runs, the
current drain processes `[a1, a2]`, not only `[a1]`. -/
theorem drain_not_snapshot_cex :
    processActions [1] [[2]] = [1, 2] ∧ processActions [1] [[2]] ≠ [1] := by
  decide

/-- C3 (amended): the drain processes the live queue until it is empty.
When nothing is enqueued during the drain it processes exactly the
actions present at drain start, in FIFO order; every initially queued
action is processed; and any action enqueued while the drain is
processing a queued action is processed in the same drain, not deferred
to the next cycle. -/
theorem drain_processes_live_queue :
    (∀ (α : Type) (q : List α), processActions q [] = q) ∧
      (∀ (α : Type) (q : List α) (injs : List (List α)) (a : α),
        a ∈ q → a ∈ processActions q injs) ∧
      (∀ (α : Type) (q x : List α) (is : List (List α)) (a : α),
        q ≠ [] → a ∈ x → a ∈ processActions q (x :: is)) := by
  refine ⟨fun α q => processActions_no_enqueue q,
    fun α q injs a ha => processActions_mem_of_mem injs q a ha, ?_⟩
  intro α q x is a hq hx
  cases q with
  | nil => exact absurd rfl hq
  | cons b rest =>
    exact List.mem_cons_of_mem b
      (processActions_mem_of_mem is (rest ++ x) a (List.mem_append_right rest hx))

/-- C3 (witness): the amended theorem applied concretely — a drain with
no concurrent enqueue returns its queue, and the action 2 enqueued
during the processing of 1 is processed by the same drain. -/
theorem drain_processes_live_queue_witness :
    processActions [5, 6] ([] : List (List Nat)) = [5, 6] ∧
      (2 : Nat) ∈ processActions [1] [[2]] :=
  ⟨drain_processes_live_queue.1 Nat [5, 6],
    drain_processes_live_queue.2.2 Nat [1] [2] [] 2 (by decide) (by decide)⟩

/-- State of `TransformersDaemon` as touched by `shutdown`: the
`running` flag, `state["status"]`, and the model manager's caches
(cleared by `cleanup`). -/
structure Daemon where
  running : Bool
  status : String
  loadedModels : List (String × Nat)
deriving DecidableEq

/-- Embeds `TransformersDaemon.shutdown`: set `running = False`, set
`state["status"] = "shutdown"`, clear the model manager's caches, then
call `sys.exit(0)` — which raises `SystemExit` rather than returning.
The second component records that the call exits the process (raises). -/
def shutdown (_d : Daemon) : Daemon × Bool :=
  ({ running := false, status := "shutdown", loadedModels := [] }, true)

/-- C4 (counterexample): the second `shutdown` call is not an
exception-free no-op — like the first, it runs the full body again and
ends in `sys.exit(0)`, raising `SystemExit`. -/
theorem shutdown_second_call_raises_cex :
    (shutdown (shutdown ⟨true, "running", [("gpt2", 0)]⟩).1).2 = true ∧
      (shutdown ⟨true, "running", [("gpt2", 0)]⟩).2 = true := by
  decide

/-- C4 (amended): `shutdown` is idempotent on the daemon state — a
second call reproduces exactly the state of the first (terminal status
the string `"shutdown"`, `running` false, caches cleared) — but every
call, the second included, invokes `sys.exit(0)` and therefore raises
`SystemExit` instead of returning normally. -/
theorem shutdown_idempotent_state_but_exits :
    (∀ d : Daemon, (shutdown (shutdown d).1).1 = (shutdown d).1) ∧
      (∀ d : Daemon, (shutdown d).1.status = "shutdown" ∧
        (shutdown d).1.running = false ∧ (shutdown d).1.loadedModels = []) ∧
      (∀ d : Daemon, (shutdown d).2 = true ∧ (shutdown (shutdown d).1).2 = true) :=
  ⟨fun _ => rfl, fun _ => ⟨rfl, rfl, rfl⟩, fun _ => ⟨rfl, rfl⟩⟩

/-- Embeds `AgentLoop._update_consciousness` over exact rationals (the
Python code computes in floats):
`min(1.0, (uptime/86400)*0.3 + (cycles/10000)*0.3 + (thoughts/100)*0.4)`.
Only the final total is capped, and only from above. -/
def updateConsciousness (uptime cycles thoughts : ℚ) : ℚ :=
  min 1 (uptime / 86400 * (3 / 10) + cycles / 10000 * (3 / 10) +
    thoughts / 100 * (4 / 10))

/-- Modelled from the spec for comparison with `updateConsciousness`
(claim C8): each contributing fraction clamped to `[0, 1]` before
weighting, and the weighted total clamped to `[0, 1]`. -/
def updateConsciousnessClamped (uptime cycles thoughts : ℚ) : ℚ :=
  max 0 (min 1 (max 0 (min 1 (uptime / 86400)) * (3 / 10) +
    max 0 (min 1 (cycles / 10000)) * (3 / 10) +
    max 0 (min 1 (thoughts / 100)) * (4 / 10)))

/-- Embeds the thought-log maintenance of `AgentLoop._consciousness_cycle`:
append the new thought, then keep only the last 100 when the log
exceeds 100 entries (`self.thoughts = self.thoughts[-100:]`). -/
def appendThought {α : Type} (l : List α) (t : α) : List α :=
  if 100 < (l ++ [t]).length then (l ++ [t]).drop ((l ++ [t]).length - 100)
  else l ++ [t]

/-- C8 (counterexample): the contributing fractions are not clamped
before weighting.  After two days of uptime (`uptime = 172800` s) with
no cycles and no thoughts, the code yields `0.6` (the unclamped uptime
fraction 2 enters the weighted sum), while the per-fraction-clamped
formula of the claim yields `0.3`. -/
theorem consciousness_not_clamped_per_fraction_cex :
    updateConsciousness 172800 0 0 = 3 / 5 ∧
      updateConsciousnessClamped 172800 0 0 = 3 / 10 ∧
      updateConsciousness 172800 0 0 ≠ updateConsciousnessClamped 172800 0 0 := by
  unfold updateConsciousness updateConsciousnessClamped
  norm_num [min_def, max_def]

/-- C8 (amended): the consciousness score clamps only the weighted
total and only from above, yet for the non-negative inputs the daemon
produces it always lies in `[0, 1]` and is monotonically non-decreasing
in each input; the thought-log length feeding it never decreases (and
stays at most 100), so consecutive status snapshots of a running daemon
with growing uptime and cycle count see a non-decreasing score. -/
theorem consciousness_bounded_monotone :
    (∀ u c th : ℚ, 0 ≤ u → 0 ≤ c → 0 ≤ th →
        0 ≤ updateConsciousness u c th ∧ updateConsciousness u c th ≤ 1) ∧
      (∀ u c th u' c' th' : ℚ, u ≤ u' → c ≤ c' → th ≤ th' →
        updateConsciousness u c th ≤ updateConsciousness u' c' th') ∧
      (∀ (l : List String) (t : String), l.length ≤ 100 →
        l.length ≤ (appendThought l t).length ∧ (appendThought l t).length ≤ 100) := by
  refine ⟨?_, ?_, ?_⟩
  · intro u c th hu hc hth
    constructor
    · apply le_min
      · norm_num
      · positivity
    · exact min_le_left 1 _
  · intro u c th u' c' th' hu hc hth
    unfold updateConsciousness
    apply min_le_min le_rfl
    gcongr
  · intro l t hl
    unfold appendThought
    split_ifs with h
    · rw [List.length_drop]
      simp only [List.length_append, List.length_cons, List.length_nil] at h ⊢
      omega
    · simp only [List.length_append, List.length_cons, List.length_nil] at h ⊢
      omega

/-- C8 (witness): the amended bounds and monotonicity at concrete
inputs — a fresh daemon scores in `[0, 1]`, and a day of uptime with
100 cycles and 10 thoughts scores at least the fresh daemon. -/
theorem consciousness_bounded_monotone_witness :
    (0 ≤ updateConsciousness 0 0 0 ∧ updateConsciousness 0 0 0 ≤ 1) ∧
      updateConsciousness 0 0 0 ≤ updateConsciousness 86400 100 10 ∧
      ([] : List String).length ≤ (appendThought [] "t").length :=
  ⟨consciousness_bounded_monotone.1 0 0 0 le_rfl le_rfl le_rfl,
    consciousness_bounded_monotone.2.1 0 0 0 86400 100 10 (by norm_num)
      (by norm_num) (by norm_num),
    (consciousness_bounded_monotone.2.2 [] "t" (by decide)).1⟩

/-- Embeds `AgentLoop.get_recent_thoughts`: `self.thoughts[-count:]`
under Python slice semantics — `-0` is just `0`, so `count = 0` slices
from the start and returns the whole list, while `count ≥ 1` returns
the last `count` entries (all of them when `count` exceeds the
length). -/
def getRecentThoughts {α : Type} (thoughts : List α) (count : Nat) : List α :=
  if count = 0 then thoughts else thoughts.drop (thoughts.length - count)

/-- C10: `get_recent_thoughts(count)` returns the last `count` thoughts
(a suffix of the log of length `min count len`) whenever `count ≥ 1`,
and for `count = 0` it returns the entire rolling thought log — not an
empty list — because `thoughts[-0:]` is `thoughts[0:]`. -/
theorem getRecentThoughts_last_or_all :
    (∀ (α : Type) (thoughts : List α) (count : Nat), 1 ≤ count →
        thoughts.take (thoughts.length - count) ++ getRecentThoughts thoughts count
            = thoughts ∧
          (getRecentThoughts thoughts count).length = min count thoughts.length) ∧
      (∀ (α : Type) (thoughts : List α), getRecentThoughts thoughts 0 = thoughts) := by
  constructor
  · intro α thoughts count hc
    have hc0 : count ≠ 0 := by omega
    unfold getRecentThoughts
    rw [if_neg hc0]
    refine ⟨List.take_append_drop _ _, ?_⟩
    rw [List.length_drop]
    omega
  · intro α thoughts
    simp [getRecentThoughts]

/-- C10 (witness): on the log `[1, 2, 3]`, `count = 2` returns the
suffix of length 2, and `count = 0` returns the whole log. -/
theorem getRecentThoughts_last_or_all_witness :
    ([1, 2, 3].take ([1, 2, 3].length - 2) ++ getRecentThoughts [1, 2, 3] 2
        = ([1, 2, 3] : List Nat) ∧
      (getRecentThoughts ([1, 2, 3] : List Nat) 2).length = min 2 [1, 2, 3].length) ∧
      getRecentThoughts ([9] : List Nat) 0 = [9] :=
  ⟨getRecentThoughts_last_or_all.1 Nat [1, 2, 3] 2 (by decide),
    getRecentThoughts_last_or_all.2 Nat [9]⟩
